import Mathlib

set_option maxRecDepth 100000

/-!
Verification development for the ShiftPlanner repository.

The repository consists of a single Python script,
`src/backend/scripts/debug_jan26.py`, which reads two ICS calendar export
files, extracts weekend shift assignments for January/February 2026, and
prints a sorted table.  This file gives a shallow embedding of that script:

* A `Date` record with proleptic-Gregorian calendar arithmetic models
  Python `datetime` values as produced by `datetime.strptime(s, "%Y%m%d")`
  (date component only; the time component is always midnight and never
  observed by the script).  `toRD` is the rata-die day number
  (`datetime.toordinal`), `weekday` is `datetime.weekday` (Monday = 0),
  `nextDay` is `+ timedelta(days=1)`, `prevDay` is `- timedelta(days=1)`.
* The regular-expression searches of the script
  (`SUMMARY:(.*)`, `DTSTART(?:;VALUE=DATE)?:(\d{8})`,
  `DTEND(?:;VALUE=DATE)?:(\d{8})`) are modelled by a leftmost-match scan
  over the character list of an event block.
* `processBlock`, `goBlocks`, `parseContent`, `parse_ics` and `run` model
  the body of the per-event loop, the loop over event blocks, the parsing
  of a whole file content, the `parse_ics` function (with its two-step
  path resolution) and the driver code at the bottom of the script.
  Fallible steps are modelled in `Except Unit`: an uncaught Python
  exception is `Except.error ()`.
-/

/-- A calendar date, modelling the date components of a Python `datetime`. -/
structure Date where
  year : Nat
  month : Nat
  day : Nat
deriving DecidableEq, Repr

/-- Gregorian leap-year test, as used by Python `datetime`. -/
def isLeap (y : Nat) : Bool :=
  (decide (y % 4 = 0) && decide (y % 100 ≠ 0)) || decide (y % 400 = 0)

/-- Number of days in a month of a given year (Gregorian calendar). -/
def daysInMonth (y m : Nat) : Nat :=
  if m = 2 then (if isLeap y then 29 else 28)
  else if m = 4 ∨ m = 6 ∨ m = 9 ∨ m = 11 then 30
  else 31

/-- Number of leap years in `[1, n]` (closed Gregorian formula). -/
def leapCount (n : Nat) : Nat := n / 4 - n / 100 + n / 400

/-- Total number of days in months `1 .. m` of year `y`. -/
def monthDaysBefore (y : Nat) : Nat → Nat
  | 0 => 0
  | m + 1 => monthDaysBefore y m + daysInMonth y (m + 1)

/-- Validity of a date: the acceptance condition of the `datetime`
constructor (year at least `MINYEAR = 1`; the upper bound `MAXYEAR = 9999`
is automatic for dates parsed from 8-digit strings and is not needed
elsewhere, so it is not included). -/
def validDate (d : Date) : Bool :=
  decide (1 ≤ d.year) && decide (1 ≤ d.month) && decide (d.month ≤ 12) &&
    decide (1 ≤ d.day) && decide (d.day ≤ daysInMonth d.year d.month)

/-- Rata-die day number of a date: `datetime.toordinal`, with
`toRD ⟨1, 1, 1⟩ = 1`. -/
def toRD (d : Date) : Nat :=
  365 * (d.year - 1) + leapCount (d.year - 1) +
    monthDaysBefore d.year (d.month - 1) + d.day

/-- Weekday of a date with Monday = 0 .. Sunday = 6: `datetime.weekday`.
Day 1 (0001-01-01) is a Monday in the proleptic Gregorian calendar. -/
def weekday (d : Date) : Nat := (toRD d + 6) % 7

/-- The next calendar day: `+ timedelta(days=1)`. -/
def nextDay (d : Date) : Date :=
  if d.day < daysInMonth d.year d.month then ⟨d.year, d.month, d.day + 1⟩
  else if d.month < 12 then ⟨d.year, d.month + 1, 1⟩
  else ⟨d.year + 1, 1, 1⟩

/-- The previous calendar day: `- timedelta(days=1)` (meaningful for valid
dates other than 0001-01-01, where Python raises `OverflowError`). -/
def prevDay (d : Date) : Date :=
  if 1 < d.day then ⟨d.year, d.month, d.day - 1⟩
  else if 1 < d.month then ⟨d.year, d.month - 1, daysInMonth d.year (d.month - 1)⟩
  else ⟨d.year - 1, 12, 31⟩

/-- Comparison `current <= end_date` on Python `datetime` values: since the
time components are all midnight, this is lexicographic comparison of
(year, month, day). -/
def dateLE (a b : Date) : Bool :=
  decide (a.year < b.year) ||
    (decide (a.year = b.year) &&
      (decide (a.month < b.month) ||
        (decide (a.month = b.month) && decide (a.day ≤ b.day))))

/-- Zero-padded two-digit decimal rendering (`%m`, `%d` of `strftime`). -/
def pad2 (n : Nat) : String :=
  if n < 10 then "0" ++ Nat.repr n else Nat.repr n

/-- Zero-padded four-digit decimal rendering (`%Y` of `strftime`, for the
years at most 9999 that occur here). -/
def pad4 (n : Nat) : String :=
  if n < 10 then "000" ++ Nat.repr n
  else if n < 100 then "00" ++ Nat.repr n
  else if n < 1000 then "0" ++ Nat.repr n
  else Nat.repr n

/-- ISO date rendering: `current.strftime("%Y-%m-%d")`. -/
def isoFormat (d : Date) : String :=
  pad4 d.year ++ "-" ++ pad2 d.month ++ "-" ++ pad2 d.day

/-- Decimal value of a digit string (most significant digit first). -/
def digitsVal (cs : List Char) : Nat :=
  cs.foldl (fun acc c => acc * 10 + (c.toNat - 48)) 0

/-- `datetime.strptime(s, "%Y%m%d")`, returning `none` on `ValueError`:
the format requires exactly four digits for `%Y` and then two-digit
greedy matches for `%m` and `%d`, the whole string must be consumed, and
the `datetime` constructor then validates the calendar date. -/
def parseDate8 (s : String) : Option Date :=
  let cs := s.data
  if cs.length = 8 ∧ cs.all Char.isDigit then
    let d : Date := ⟨digitsVal (cs.take 4), digitsVal ((cs.drop 4).take 2),
      digitsVal (cs.drop 6)⟩
    if validDate d then some d else none
  else none

/-- Characters up to (not including) the next newline: the text matched by
the greedy capture `(.*)` of `re.search`, whose `.` matches every
character except `\n`. -/
def takeLine : List Char → List Char
  | [] => []
  | c :: cs => if c = '\n' then [] else c :: takeLine cs

/-- Leftmost-match search: `re.search` tries the pattern at every position
of the text (including the final empty position) and returns the first
success. -/
def reSearchAux {α : Type} (tryAt : List Char → Option α) : List Char → Option α
  | [] => tryAt []
  | c :: cs =>
    match tryAt (c :: cs) with
    | some r => some r
    | none => reSearchAux tryAt cs

/-- The literal `SUMMARY:` of the pattern `SUMMARY:(.*)`. -/
def summaryTag : List Char := "SUMMARY:".data

/-- The literal of the optional group `(?:;VALUE=DATE)?`. -/
def valueDateTag : List Char := ";VALUE=DATE".data

/-- Match of `SUMMARY:(.*)` at one position, returning the capture. -/
def trySummaryAt (cs : List Char) : Option (List Char) :=
  if summaryTag.isPrefixOf cs then some (takeLine (cs.drop 8)) else none

/-- Match of `TAG(?:;VALUE=DATE)?:(\d{8})` at one position for a literal
`TAG` (`DTSTART` or `DTEND`), returning the 8-digit capture.  The optional
group needs no backtracking: when `;VALUE=DATE` is present it must be
consumed, since `;` can never match the following `:` of the pattern. -/
def tryDateTagAt (tag : List Char) (cs : List Char) : Option String :=
  if tag.isPrefixOf cs then
    let rest := cs.drop tag.length
    let rest := if valueDateTag.isPrefixOf rest then rest.drop 11 else rest
    match rest with
    | ':' :: ds =>
      let d8 := ds.take 8
      if d8.length = 8 ∧ d8.all Char.isDigit then some (String.mk d8) else none
    | _ => none
  else none

/-- `re.search(r"SUMMARY:(.*)", evt)`, returning the first capture. -/
def extractSummary (evt : List Char) : Option (List Char) :=
  reSearchAux trySummaryAt evt

/-- `re.search(r"DTSTART(?:;VALUE=DATE)?:(\d{8})", evt)`. -/
def extractStart (evt : List Char) : Option String :=
  reSearchAux (tryDateTagAt ("DTSTART".data)) evt

/-- `re.search(r"DTEND(?:;VALUE=DATE)?:(\d{8})", evt)`. -/
def extractEnd (evt : List Char) : Option String :=
  reSearchAux (tryDateTagAt ("DTEND".data)) evt

/-- Python `str.strip()`: remove whitespace from both ends. -/
def pyStrip (cs : List Char) : List Char :=
  ((cs.dropWhile Char.isWhitespace).reverse.dropWhile Char.isWhitespace).reverse

/-- Python substring test `needle in hay`. -/
def hasSubstr (needle : List Char) : List Char → Bool
  | [] => needle.isEmpty
  | c :: cs => needle.isPrefixOf (c :: cs) || hasSubstr needle cs

/-- The exclusion marker `OOO`. -/
def oooChars : List Char := "OOO".data

/-- The exclusion marker `+`. -/
def plusChars : List Char := "+".data

/-- The event-block delimiter `BEGIN:VEVENT`. -/
def beginTag : List Char := "BEGIN:VEVENT".data

/-- Fuelled worker for `content.split("BEGIN:VEVENT")`: scan left to
right, cutting at each non-overlapping occurrence of the delimiter.  The
fuel starts at the text length and is an upper bound on the scan steps, so
the fuel-exhausted branch is unreachable. -/
def splitEventsF : Nat → List Char → List Char → List (List Char)
  | _, [], acc => [acc.reverse]
  | 0, cs, acc => [acc.reverse ++ cs]
  | fuel + 1, c :: cs, acc =>
    if beginTag.isPrefixOf (c :: cs) then
      acc.reverse :: splitEventsF fuel (cs.drop 11) []
    else splitEventsF fuel cs (c :: acc)

/-- `content.split("BEGIN:VEVENT")`. -/
def splitEvents (cs : List Char) : List (List Char) := splitEventsF cs.length cs []

/-- One row of the output: the dict appended by the script for a weekend
day, with `date = current.strftime("%Y-%m-%d")`, `day` the weekend label,
`name` the stripped summary, and `shift` the caller-supplied tag. -/
structure ShiftRecord where
  date : String
  day : String
  name : String
  shift : String
deriving DecidableEq, Repr

/-- The record the script appends for weekend day `current`. -/
def mkRec (current : Date) (summary shift_name : String) : ShiftRecord :=
  { date := isoFormat current
    day := if weekday current = 6 then "Sun" else "Sat"
    name := summary
    shift := shift_name }

/-- The loop `while current <= end_date: ... current += timedelta(days=1)`
of `parse_ics`, emitting one record per weekend day.  The fuel
`toRD end_date + 1 - toRD current` is exactly the number of iterations of
the Python loop, so the model never stops early (proved below). -/
def expandLoop (summary shift_name : String) : Nat → Date → Date → List ShiftRecord
  | 0, _, _ => []
  | fuel + 1, current, end_date =>
    if dateLE current end_date then
      (if weekday current = 5 ∨ weekday current = 6 then
        [mkRec current summary shift_name]
      else []) ++ expandLoop summary shift_name fuel (nextDay current) end_date
    else []

/-- The body of `for evt in events[1:]` in `parse_ics`: regex extraction,
the missing-field and summary filters, `strptime` of the start date inside
`try/except ValueError`, the year and month filters, the *unguarded*
`strptime` of the end date (a `ValueError` there propagates, modelled as
`Except.error ()`, as does the `OverflowError` of `datetime(1,1,1) -
timedelta(days=1)`), and the weekend-expansion loop. -/
def processBlock (shift_name : String) (evt : List Char) : Except Unit (List ShiftRecord) :=
  match extractSummary evt with
  | none => Except.ok []
  | some raw =>
    match extractStart evt with
    | none => Except.ok []
    | some ss =>
      let stripped := pyStrip raw
      if hasSubstr oooChars stripped || hasSubstr plusChars stripped then Except.ok []
      else
        match parseDate8 ss with
        | none => Except.ok []
        | some start_date =>
          if start_date.year ≠ 2026 then Except.ok []
          else if 2 < start_date.month then Except.ok []
          else
            match extractEnd evt with
            | some es =>
              match parseDate8 es with
              | none => Except.error ()
              | some e =>
                if e = ⟨1, 1, 1⟩ then Except.error ()
                else
                  Except.ok (expandLoop (String.mk stripped) shift_name
                    (toRD (prevDay e) + 1 - toRD start_date) start_date (prevDay e))
            | none =>
              Except.ok (expandLoop (String.mk stripped) shift_name
                (toRD start_date + 1 - toRD start_date) start_date start_date)

/-- The loop over the event blocks of one file, concatenating the records
of each block; an exception raised in one block aborts the whole call. -/
def goBlocks (shift_name : String) : List (List Char) → Except Unit (List ShiftRecord)
  | [] => Except.ok []
  | evt :: rest =>
    match processBlock shift_name evt with
    | Except.error e => Except.error e
    | Except.ok rs =>
      match goBlocks shift_name rest with
      | Except.error e => Except.error e
      | Except.ok more => Except.ok (rs ++ more)

/-- Parsing of one file's content: split on `BEGIN:VEVENT`, discard the
first segment (`events[1:]`), and process every block. -/
def parseContent (content : String) (shift_name : String) : Except Unit (List ShiftRecord) :=
  goBlocks shift_name ((splitEvents content.data).drop 1)

/-- Primary candidate path
`os.path.join(os.path.dirname(__file__), "../../migrate", filename)`,
with the script's directory rendered relative to the repository root. -/
def primaryPath (filename : String) : String :=
  "src/backend/scripts" ++ "/" ++ "../../migrate" ++ "/" ++ filename

/-- Hardcoded absolute fallback path of the script. -/
def fallbackPath (filename : String) : String :=
  "/Users/bishwash/Documents/GitHub/ShiftPlanner/migrate" ++ "/" ++ filename

/-- `parse_ics(filename, shift_name)`.  The file system is abstracted as a
map from paths to contents, `none` meaning the path does not exist; a
file that exists is assumed readable (a read error would be caught by the
script's `try/except` and also yield `[]`). -/
def parse_ics (fs : String → Option String) (filename shift_name : String) :
    Except Unit (List ShiftRecord) :=
  match fs (primaryPath filename) with
  | some content => parseContent content shift_name
  | none =>
    match fs (fallbackPath filename) with
    | some content => parseContent content shift_name
    | none => Except.ok []

/-- Lexicographic code-point comparison of character lists: Python string
`<`. -/
def lexLt : List Char → List Char → Bool
  | [], [] => false
  | [], _ :: _ => true
  | _ :: _, [] => false
  | a :: as, b :: bs =>
    if a.toNat < b.toNat then true
    else if b.toNat < a.toNat then false
    else lexLt as bs

/-- Python string comparison `a < b` (code-point lexicographic). -/
def strLt (a b : String) : Bool := lexLt a.data b.data

/-- Python string comparison `a <= b`. -/
def strLe (a b : String) : Bool := !(strLt b a)

/-- The sort key comparison `(x["date"], x["shift"])`: Python tuple order,
lexicographic on the ISO date string, then on the shift tag. -/
def key_le (a b : ShiftRecord) : Prop :=
  strLt a.date b.date = true ∨ (a.date = b.date ∧ strLe a.shift b.shift = true)

instance : DecidableRel key_le := fun a b => by
  unfold key_le; infer_instance

deriving instance DecidableEq for Except

/-- `all_ops.sort(key=lambda x: (x["date"], x["shift"]))`: a stable sort
by the tuple key, modelled as insertion sort (stable, so extensionally
equal to Python's stable sort for this key). -/
def sortRecords (l : List ShiftRecord) : List ShiftRecord :=
  List.insertionSort key_le l

/-- The printed table header. -/
def headerLine : String := "Date       | Day | Shift | Name"

/-- The printed separator row. -/
def dashLine : String := "-----------|-----|-------|------"

/-- One printed table row. -/
def rowLine (r : ShiftRecord) : String :=
  r.date ++ " | " ++ r.day ++ " | " ++ r.shift ++ "    | " ++ r.name

/-- The driver at the bottom of the script: extract both files, sort the
combined records, and print the table (debug log lines are omitted from
the model; only the table lines are kept, in print order). -/
def run (fs : String → Option String) : Except Unit (List String) :=
  match parse_ics fs ("AMR AM Analysts.ics") ("AM") with
  | Except.error e => Except.error e
  | Except.ok am =>
    match parse_ics fs ("AMR PM Analysts.ics") ("PM") with
    | Except.error e => Except.error e
    | Except.ok pm =>
      Except.ok (headerLine :: dashLine :: (sortRecords (am ++ pm)).map rowLine)

/-- The list of `n` consecutive calendar days starting at `start` (used to
state what the expansion loop produces). -/
def dayRange (start : Date) : Nat → List Date
  | 0 => []
  | n + 1 => start :: dayRange (nextDay start) n

/-- The record emitted for day `d`, when `d` is a weekend day. -/
def weekendRec (summary shift_name : String) (d : Date) : Option ShiftRecord :=
  if weekday d = 5 ∨ weekday d = 6 then some (mkRec d summary shift_name) else none

/-- Year component of an ISO `YYYY-MM-DD` date string. -/
def isoYear (s : String) : Nat := digitsVal (s.data.take 4)

/-- Month component of an ISO `YYYY-MM-DD` date string. -/
def isoMonth (s : String) : Nat := digitsVal ((s.data.drop 5).take 2)

/-! ### Properties of the string order used by the sort key -/

theorem lexLt_trans : ∀ as bs cs : List Char,
    lexLt as bs = true → lexLt bs cs = true → lexLt as cs = true := by
  intro as
  induction as with
  | nil =>
    intro bs cs h1 h2
    cases bs with
    | nil => simp [lexLt] at h1
    | cons b bs =>
      cases cs with
      | nil => simp [lexLt] at h2
      | cons c cs => simp [lexLt]
  | cons a as ih =>
    intro bs cs h1 h2
    cases bs with
    | nil => simp [lexLt] at h1
    | cons b bs =>
      cases cs with
      | nil => simp [lexLt] at h2
      | cons c cs =>
        simp only [lexLt] at h1 h2 ⊢
        by_cases hab : a.toNat < b.toNat <;> by_cases hbc : b.toNat < c.toNat <;>
          by_cases hba : b.toNat < a.toNat <;> by_cases hcb : c.toNat < b.toNat <;>
          simp [hab, hbc, hba, hcb] at h1 h2 ⊢ <;>
          first
          | omega
          | (have hac : a.toNat < c.toNat := by omega
             simp [hac])
          | (have hac1 : ¬ a.toNat < c.toNat := by omega
             have hac2 : ¬ c.toNat < a.toNat := by omega
             simp [hac1, hac2] <;>
               first
               | exact ih bs cs h1 h2
               | exact ⟨by omega, ih bs cs h1 h2⟩)

theorem lexLt_false_trans : ∀ as bs cs : List Char,
    lexLt as bs = false → lexLt bs cs = false → lexLt as cs = false := by
  intro as
  induction as with
  | nil =>
    intro bs cs h1 h2
    cases bs with
    | nil => exact h2
    | cons b bs => simp [lexLt] at h1
  | cons a as ih =>
    intro bs cs h1 h2
    cases bs with
    | nil =>
      cases cs with
      | nil => simp [lexLt]
      | cons c cs => simp [lexLt] at h2
    | cons b bs =>
      cases cs with
      | nil => simp [lexLt]
      | cons c cs =>
        simp only [lexLt] at h1 h2 ⊢
        by_cases hab : a.toNat < b.toNat <;> by_cases hbc : b.toNat < c.toNat <;>
          by_cases hba : b.toNat < a.toNat <;> by_cases hcb : c.toNat < b.toNat <;>
          ((try simp [hab, hbc, hba, hcb] at h1); (try simp [hab, hbc, hba, hcb] at h2)) <;>
          first
          | omega
          | (have hac1 : ¬ a.toNat < c.toNat := by omega
             have hac2 : c.toNat < a.toNat := by omega
             simp [hac1, hac2])
          | (have hac1 : ¬ a.toNat < c.toNat := by omega
             have hac2 : ¬ c.toNat < a.toNat := by omega
             simp [hac1, hac2] <;>
               first
               | exact ih bs cs h1 h2
               | exact ⟨by omega, ih bs cs h1 h2⟩)

theorem lexLt_asymm : ∀ as bs : List Char,
    lexLt as bs = true → lexLt bs as = false := by
  intro as
  induction as with
  | nil =>
    intro bs h1
    cases bs with
    | nil => simp [lexLt] at h1
    | cons b bs => simp [lexLt]
  | cons a as ih =>
    intro bs h1
    cases bs with
    | nil => simp [lexLt] at h1
    | cons b bs =>
      simp only [lexLt] at h1 ⊢
      by_cases hab : a.toNat < b.toNat <;> by_cases hba : b.toNat < a.toNat <;>
        simp [hab, hba] at h1 ⊢ <;>
        first
        | omega
        | exact ih bs h1

theorem lexLt_eq_of_false : ∀ as bs : List Char,
    lexLt as bs = false → lexLt bs as = false → as = bs := by
  intro as
  induction as with
  | nil =>
    intro bs h1 h2
    cases bs with
    | nil => rfl
    | cons b bs => simp [lexLt] at h1
  | cons a as ih =>
    intro bs h1 h2
    cases bs with
    | nil => simp [lexLt] at h2
    | cons b bs =>
      simp only [lexLt] at h1 h2
      by_cases hab : a.toNat < b.toNat <;> by_cases hba : b.toNat < a.toNat <;>
        ((try simp [hab, hba] at h1); (try simp [hab, hba] at h2)) <;>
        first
        | omega
        | (have hn : a.toNat = b.toNat := by omega
           have hc : a = b := Char.eq_of_val_eq (UInt32.ext hn)
           rw [hc, ih bs h1 h2])

theorem string_eq_of_data {a b : String} (h : a.data = b.data) : a = b := by
  cases a; cases b; exact congrArg String.mk h

theorem key_le_trans : ∀ a b c : ShiftRecord, key_le a b → key_le b c → key_le a c := by
  intro a b c hab hbc
  rcases hab with h1 | ⟨h1, h1s⟩ <;> rcases hbc with h2 | ⟨h2, h2s⟩
  · exact Or.inl (lexLt_trans _ _ _ h1 h2)
  · exact Or.inl (h2 ▸ h1)
  · exact Or.inl (h1 ▸ h2)
  · refine Or.inr ⟨h1.trans h2, ?_⟩
    simp only [strLe, strLt, Bool.not_eq_true'] at h1s h2s ⊢
    exact lexLt_false_trans _ _ _ h2s h1s

theorem key_le_total : ∀ a b : ShiftRecord, key_le a b ∨ key_le b a := by
  intro a b
  cases hd : lexLt a.date.data b.date.data with
  | true => exact Or.inl (Or.inl hd)
  | false =>
    cases hd2 : lexLt b.date.data a.date.data with
    | true => exact Or.inr (Or.inl hd2)
    | false =>
      have hdate : a.date = b.date := string_eq_of_data (lexLt_eq_of_false _ _ hd hd2)
      cases hs : lexLt b.shift.data a.shift.data with
      | false => exact Or.inl (Or.inr ⟨hdate, by simp [strLe, strLt, hs]⟩)
      | true =>
        exact Or.inr (Or.inr ⟨hdate.symm, by simp [strLe, strLt, lexLt_asymm _ _ hs]⟩)

/-! ### Calendar arithmetic lemmas -/

theorem daysInMonth_pos (y m : Nat) : 1 ≤ daysInMonth y m := by
  unfold daysInMonth
  split
  · split <;> omega
  · split <;> omega

theorem monthDaysBefore_succ (y m : Nat) :
    monthDaysBefore y (m + 1) = monthDaysBefore y m + daysInMonth y (m + 1) := rfl

theorem monthDaysBefore_twelve (y : Nat) :
    monthDaysBefore y 12 = 365 + (if isLeap y then 1 else 0) := by
  have h : monthDaysBefore y 12 =
      0 + daysInMonth y 1 + daysInMonth y 2 + daysInMonth y 3 + daysInMonth y 4 +
        daysInMonth y 5 + daysInMonth y 6 + daysInMonth y 7 + daysInMonth y 8 +
        daysInMonth y 9 + daysInMonth y 10 + daysInMonth y 11 + daysInMonth y 12 := rfl
  rw [h]
  simp only [show daysInMonth y 1 = 31 from rfl, show daysInMonth y 3 = 31 from rfl,
    show daysInMonth y 4 = 30 from rfl, show daysInMonth y 5 = 31 from rfl,
    show daysInMonth y 6 = 30 from rfl, show daysInMonth y 7 = 31 from rfl,
    show daysInMonth y 8 = 31 from rfl, show daysInMonth y 9 = 30 from rfl,
    show daysInMonth y 10 = 31 from rfl, show daysInMonth y 11 = 30 from rfl,
    show daysInMonth y 12 = 31 from rfl,
    show daysInMonth y 2 = (if isLeap y then 29 else 28) from rfl]
  cases hl : isLeap y <;> simp [hl]

theorem monthDaysBefore_mono (y : Nat) : ∀ a b : Nat, a ≤ b →
    monthDaysBefore y a ≤ monthDaysBefore y b := by
  intro a b h
  induction b with
  | zero =>
    have ha : a = 0 := by omega
    subst ha; exact le_refl _
  | succ b ih =>
    by_cases hab : a ≤ b
    · calc monthDaysBefore y a ≤ monthDaysBefore y b := ih hab
        _ ≤ monthDaysBefore y (b + 1) := by
            rw [monthDaysBefore_succ]; omega
    · have heq : a = b + 1 := by omega
      subst heq; exact le_refl _

theorem leapCount_succ (n : Nat) :
    leapCount (n + 1) = leapCount n + (if isLeap (n + 1) then 1 else 0) := by
  by_cases hL : isLeap (n + 1) = true
  · have hm : ((n + 1) % 4 = 0 ∧ (n + 1) % 100 ≠ 0) ∨ (n + 1) % 400 = 0 := by
      simpa [isLeap] using hL
    simp only [leapCount, hL, if_true]
    omega
  · have hm : ¬ (((n + 1) % 4 = 0 ∧ (n + 1) % 100 ≠ 0) ∨ (n + 1) % 400 = 0) := by
      simpa [isLeap] using hL
    have hL2 : isLeap (n + 1) = false := by
      simpa using hL
    simp only [leapCount, hL2, Bool.false_eq_true, if_false]
    omega

theorem toRD_nextDay (d : Date) (h : validDate d = true) :
    toRD (nextDay d) = toRD d + 1 := by
  obtain ⟨y, m, dd⟩ := d
  simp only [validDate, Bool.and_eq_true, decide_eq_true_eq] at h
  obtain ⟨⟨⟨⟨hy, hm1⟩, hm2⟩, hd1⟩, hd2⟩ := h
  unfold nextDay
  by_cases hlt : dd < daysInMonth y m
  · simp only [if_pos hlt]
    simp only [toRD]
    omega
  · simp only [if_neg hlt]
    by_cases hm12 : m < 12
    · simp only [if_pos hm12]
      have hdd : dd = daysInMonth y m := by omega
      have hms : monthDaysBefore y m = monthDaysBefore y (m - 1) + daysInMonth y m := by
        have h1 : m - 1 + 1 = m := by omega
        calc monthDaysBefore y m = monthDaysBefore y (m - 1 + 1) := by rw [h1]
          _ = monthDaysBefore y (m - 1) + daysInMonth y (m - 1 + 1) :=
            monthDaysBefore_succ y (m - 1)
          _ = monthDaysBefore y (m - 1) + daysInMonth y m := by rw [h1]
      simp only [toRD, Nat.add_sub_cancel]
      omega
    · simp only [if_neg hm12]
      have hm' : m = 12 := by omega
      subst hm'
      have hdim12 : daysInMonth y 12 = 31 := rfl
      have hdd : dd = 31 := by omega
      have hlc : leapCount y = leapCount (y - 1) + (if isLeap y then 1 else 0) := by
        have h1 : y - 1 + 1 = y := by omega
        calc leapCount y = leapCount (y - 1 + 1) := by rw [h1]
          _ = leapCount (y - 1) + (if isLeap (y - 1 + 1) then 1 else 0) :=
            leapCount_succ (y - 1)
          _ = leapCount (y - 1) + (if isLeap y then 1 else 0) := by rw [h1]
      have hmdb12 : monthDaysBefore y 12 = 365 + (if isLeap y then 1 else 0) :=
        monthDaysBefore_twelve y
      have hmb : monthDaysBefore y 12 = monthDaysBefore y 11 + 31 := by
        have h11 := monthDaysBefore_succ y 11
        rw [show daysInMonth y 12 = 31 from rfl] at h11
        exact h11
      simp only [toRD, Nat.add_sub_cancel,
        show monthDaysBefore (y + 1) 0 = 0 from rfl,
        show (12 : Nat) - 1 = 11 from rfl, show (1 : Nat) - 1 = 0 from rfl]
      cases hl : isLeap y <;> simp only [hl, if_true, if_false,
        Bool.false_eq_true, Bool.true_eq_false] at hlc hmdb12 <;> omega

theorem nextDay_valid (d : Date) (h : validDate d = true) :
    validDate (nextDay d) = true := by
  obtain ⟨y, m, dd⟩ := d
  simp only [validDate, Bool.and_eq_true, decide_eq_true_eq] at h ⊢
  obtain ⟨⟨⟨⟨hy, hm1⟩, hm2⟩, hd1⟩, hd2⟩ := h
  unfold nextDay
  by_cases hlt : dd < daysInMonth y m
  · simp only [if_pos hlt]
    simp only at hd2 hlt ⊢
    refine ⟨⟨⟨⟨hy, hm1⟩, hm2⟩, by omega⟩, by omega⟩
  · simp only [if_neg hlt]
    by_cases hm12 : m < 12
    · simp only [if_pos hm12]
      have := daysInMonth_pos y (m + 1)
      exact ⟨⟨⟨⟨hy, by omega⟩, by omega⟩, by omega⟩, by simpa using this⟩
    · simp only [if_neg hm12]
      have : daysInMonth (y + 1) 1 = 31 := rfl
      exact ⟨⟨⟨⟨by omega, by omega⟩, by omega⟩, by omega⟩, by simp [this]⟩

theorem leapCount_mono : ∀ a b : Nat, a ≤ b → leapCount a ≤ leapCount b := by
  intro a b h
  induction b with
  | zero =>
    have ha : a = 0 := by omega
    subst ha; exact le_refl _
  | succ b ih =>
    by_cases hab : a ≤ b
    · calc leapCount a ≤ leapCount b := ih hab
        _ ≤ leapCount (b + 1) := by rw [leapCount_succ]; omega
    · have heq : a = b + 1 := by omega
      subst heq; exact le_refl _

theorem toRD_year_bound (y m dd : Nat) (hm1 : 1 ≤ m) (hm2 : m ≤ 12)
    (hd2 : dd ≤ daysInMonth y m) :
    monthDaysBefore y (m - 1) + dd ≤ 365 + (if isLeap y then 1 else 0) := by
  have h1 : m - 1 + 1 = m := by omega
  have hstep : monthDaysBefore y (m - 1) + daysInMonth y m = monthDaysBefore y m := by
    calc monthDaysBefore y (m - 1) + daysInMonth y m
        = monthDaysBefore y (m - 1) + daysInMonth y (m - 1 + 1) := by rw [h1]
      _ = monthDaysBefore y (m - 1 + 1) := (monthDaysBefore_succ y (m - 1)).symm
      _ = monthDaysBefore y m := by rw [h1]
  have hmono := monthDaysBefore_mono y m 12 hm2
  have h12 := monthDaysBefore_twelve y
  omega

theorem toRD_lt_of_lex (a b : Date) (ha : validDate a = true) (hb : validDate b = true)
    (h : a.year < b.year ∨ (a.year = b.year ∧
      (a.month < b.month ∨ (a.month = b.month ∧ a.day < b.day)))) :
    toRD a < toRD b := by
  obtain ⟨ya, ma, da⟩ := a
  obtain ⟨yb, mb, db⟩ := b
  simp only [validDate, Bool.and_eq_true, decide_eq_true_eq] at ha hb
  obtain ⟨⟨⟨⟨hya, hma1⟩, hma2⟩, hda1⟩, hda2⟩ := ha
  obtain ⟨⟨⟨⟨hyb, hmb1⟩, hmb2⟩, hdb1⟩, hdb2⟩ := hb
  simp only at h
  rcases h with hy | ⟨hy, hm | ⟨hm, hd⟩⟩
  · have hbound := toRD_year_bound ya ma da hma1 hma2 hda2
    have hlc : leapCount ya = leapCount (ya - 1) + (if isLeap ya then 1 else 0) := by
      have h1 : ya - 1 + 1 = ya := by omega
      calc leapCount ya = leapCount (ya - 1 + 1) := by rw [h1]
        _ = leapCount (ya - 1) + (if isLeap (ya - 1 + 1) then 1 else 0) :=
          leapCount_succ (ya - 1)
        _ = leapCount (ya - 1) + (if isLeap ya then 1 else 0) := by rw [h1]
    have hlcm : leapCount ya ≤ leapCount (yb - 1) := leapCount_mono ya (yb - 1) (by omega)
    simp only [toRD]
    cases hl : isLeap ya <;> simp only [hl, if_true, if_false, Bool.false_eq_true,
      Bool.true_eq_false] at hbound hlc <;> omega
  · subst hy
    have hstep : monthDaysBefore ya (ma - 1) + daysInMonth ya ma = monthDaysBefore ya ma := by
      have h1 : ma - 1 + 1 = ma := by omega
      calc monthDaysBefore ya (ma - 1) + daysInMonth ya ma
          = monthDaysBefore ya (ma - 1) + daysInMonth ya (ma - 1 + 1) := by rw [h1]
        _ = monthDaysBefore ya (ma - 1 + 1) := (monthDaysBefore_succ ya (ma - 1)).symm
        _ = monthDaysBefore ya ma := by rw [h1]
    have hmono := monthDaysBefore_mono ya ma (mb - 1) (by omega)
    simp only [toRD]
    omega
  · subst hy
    subst hm
    simp only [toRD]
    omega

theorem dateLE_iff_toRD (a b : Date) (ha : validDate a = true) (hb : validDate b = true) :
    dateLE a b = true ↔ toRD a ≤ toRD b := by
  constructor
  · intro h
    simp only [dateLE, Bool.or_eq_true, Bool.and_eq_true, decide_eq_true_eq] at h
    rcases h with hy | ⟨hy, hm | ⟨hm, hd⟩⟩
    · exact le_of_lt (toRD_lt_of_lex a b ha hb (Or.inl hy))
    · exact le_of_lt (toRD_lt_of_lex a b ha hb (Or.inr ⟨hy, Or.inl hm⟩))
    · rcases Nat.lt_or_ge a.day b.day with hd2 | hd2
      · exact le_of_lt (toRD_lt_of_lex a b ha hb (Or.inr ⟨hy, Or.inr ⟨hm, hd2⟩⟩))
      · have hdd : a.day = b.day := by omega
        have hab : a = b := by
          obtain ⟨ya, ma, da⟩ := a
          obtain ⟨yb, mb, db⟩ := b
          simp only at hy hm hdd
          simp [hy, hm, hdd]
        rw [hab]
  · intro h
    by_contra hc
    rw [Bool.not_eq_true] at hc
    have hc2 : ¬ (a.year < b.year ∨ (a.year = b.year ∧
        (a.month < b.month ∨ (a.month = b.month ∧ a.day ≤ b.day)))) := by
      intro hx
      have : dateLE a b = true := by
        simp only [dateLE, Bool.or_eq_true, Bool.and_eq_true, decide_eq_true_eq]
        exact hx
      rw [this] at hc
      exact Bool.noConfusion hc
    have hflip : b.year < a.year ∨ (b.year = a.year ∧
        (b.month < a.month ∨ (b.month = a.month ∧ b.day < a.day))) := by omega
    exact absurd h (not_le.mpr (toRD_lt_of_lex b a hb ha hflip))

theorem nextDay_prevDay (e : Date) (h : validDate e = true) (hne : e ≠ ⟨1, 1, 1⟩) :
    nextDay (prevDay e) = e ∧ validDate (prevDay e) = true := by
  obtain ⟨y, m, dd⟩ := e
  simp only [validDate, Bool.and_eq_true, decide_eq_true_eq] at h
  obtain ⟨⟨⟨⟨hy, hm1⟩, hm2⟩, hd1⟩, hd2⟩ := h
  unfold prevDay
  by_cases h1 : 1 < dd
  · simp only [if_pos h1]
    constructor
    · have hlt : dd - 1 < daysInMonth y m := by omega
      simp [nextDay, hlt, Date.mk.injEq] <;> omega
    · simp only [validDate, Bool.and_eq_true, decide_eq_true_eq]
      exact ⟨⟨⟨⟨hy, hm1⟩, hm2⟩, by omega⟩, by omega⟩
  · simp only [if_neg h1]
    by_cases h2 : 1 < m
    · simp only [if_pos h2]
      have hpos := daysInMonth_pos y (m - 1)
      constructor
      · have hnlt : ¬ (daysInMonth y (m - 1) < daysInMonth y (m - 1)) := by omega
        have hmlt : m - 1 < 12 := by omega
        simp [nextDay, hnlt, hmlt, Date.mk.injEq] <;> omega
      · simp only [validDate, Bool.and_eq_true, decide_eq_true_eq]
        omega
    · simp only [if_neg h2]
      have hm' : m = 1 := by omega
      have hd' : dd = 1 := by omega
      have hy' : 2 ≤ y := by
        rcases Nat.lt_or_ge y 2 with hlt | hge
        · exfalso
          apply hne
          have : y = 1 := by omega
          simp [this, hm', hd']
        · exact hge
      constructor
      · have hd31 : daysInMonth (y - 1) 12 = 31 := rfl
        have hnlt : ¬ ((31 : Nat) < daysInMonth (y - 1) 12) := by omega
        have hnm : ¬ ((12 : Nat) < 12) := by omega
        simp [nextDay, hd31, hnlt, hnm, Date.mk.injEq] <;> omega
      · simp only [validDate, Bool.and_eq_true, decide_eq_true_eq]
        have hd31 : daysInMonth (y - 1) 12 = 31 := rfl
        exact ⟨⟨⟨⟨by omega, by omega⟩, by omega⟩, by omega⟩, by omega⟩

theorem toRD_prevDay (e : Date) (h : validDate e = true) (hne : e ≠ ⟨1, 1, 1⟩) :
    toRD (prevDay e) + 1 = toRD e := by
  obtain ⟨hnp, hvp⟩ := nextDay_prevDay e h hne
  have hstep := toRD_nextDay (prevDay e) hvp
  rw [hnp] at hstep
  omega

theorem nextDay_year_ge (d : Date) : d.year ≤ (nextDay d).year := by
  unfold nextDay
  split
  · exact le_refl _
  · split
    · exact le_refl _
    · exact Nat.le_succ _

/-! ### Characterization of the weekend-expansion loop -/

theorem expandLoop_eq_filterMap (summary shift_name : String) : ∀ (n : Nat) (cur e : Date),
    validDate cur = true → validDate e = true → n = toRD e + 1 - toRD cur →
    expandLoop summary shift_name n cur e =
      (dayRange cur n).filterMap (weekendRec summary shift_name) := by
  intro n
  induction n with
  | zero => intro cur e _ _ _; rfl
  | succ n ih =>
    intro cur e hc he hn
    have hle : toRD cur ≤ toRD e := by omega
    have hb : dateLE cur e = true := (dateLE_iff_toRD cur e hc he).mpr hle
    have hrec := ih (nextDay cur) e (nextDay_valid cur hc) he
      (by rw [toRD_nextDay cur hc]; omega)
    simp only [expandLoop, dayRange, hb, if_true, hrec]
    by_cases hP : weekday cur = 5 ∨ weekday cur = 6
    · simp [hP, weekendRec, List.filterMap_cons]
    · simp [hP, weekendRec, List.filterMap_cons]

theorem dayRange_toRD_valid : ∀ (n : Nat) (cur : Date), validDate cur = true →
    (dayRange cur n).map toRD = List.range' (toRD cur) n ∧
      ∀ d ∈ dayRange cur n, validDate d = true := by
  intro n
  induction n with
  | zero =>
    intro cur _
    exact ⟨rfl, by simp [dayRange]⟩
  | succ n ih =>
    intro cur h
    obtain ⟨ih1, ih2⟩ := ih (nextDay cur) (nextDay_valid cur h)
    constructor
    · simp only [dayRange, List.map_cons, ih1, toRD_nextDay cur h]
      rfl
    · intro d hd
      simp only [dayRange, List.mem_cons] at hd
      rcases hd with rfl | hd
      · exact h
      · exact ih2 d hd

theorem expandLoop_mem (summary shift_name : String) : ∀ (n : Nat) (cur e : Date)
    (r : ShiftRecord), r ∈ expandLoop summary shift_name n cur e →
    ∃ d : Date, cur.year ≤ d.year ∧ (weekday d = 5 ∨ weekday d = 6) ∧
      r = mkRec d summary shift_name := by
  intro n
  induction n with
  | zero =>
    intro cur e r h
    simp [expandLoop] at h
  | succ n ih =>
    intro cur e r h
    simp only [expandLoop] at h
    by_cases hb : dateLE cur e = true
    · rw [if_pos hb] at h
      rcases List.mem_append.mp h with h1 | h2
      · by_cases hw : weekday cur = 5 ∨ weekday cur = 6
        · rw [if_pos hw] at h1
          simp only [List.mem_singleton] at h1
          exact ⟨cur, le_refl _, hw, h1⟩
        · rw [if_neg hw] at h1
          simp at h1
      · obtain ⟨d, hd1, hd2, hd3⟩ := ih (nextDay cur) e r h2
        exact ⟨d, le_trans (nextDay_year_ge cur) hd1, hd2, hd3⟩
    · rw [if_neg hb] at h
      simp at h

/-! ### Lemmas about the per-block processing -/

theorem parseDate8_valid {s : String} {d : Date} (h : parseDate8 s = some d) :
    validDate d = true := by
  simp only [parseDate8] at h
  split at h
  · split at h
    case isTrue hval =>
      injection h with h2
      exact h2 ▸ hval
    case isFalse hval => exact absurd h (by simp)
  · exact absurd h (by simp)

theorem processBlock_noEnd (shift_name : String) (evt : List Char) (raw : List Char)
    (ss : String) (d : Date)
    (hsum : extractSummary evt = some raw)
    (hfil : (hasSubstr oooChars (pyStrip raw) || hasSubstr plusChars (pyStrip raw)) = false)
    (hstart : extractStart evt = some ss)
    (hd : parseDate8 ss = some d)
    (hy : d.year = 2026) (hm : ¬ 2 < d.month)
    (hend : extractEnd evt = none) :
    processBlock shift_name evt = Except.ok
      (expandLoop (String.mk (pyStrip raw)) shift_name (toRD d + 1 - toRD d) d d) := by
  simp [processBlock, hsum, hstart, hfil, hd, hy, hm, hend]

theorem processBlock_withEnd (shift_name : String) (evt : List Char) (raw : List Char)
    (ss es : String) (d e : Date)
    (hsum : extractSummary evt = some raw)
    (hfil : (hasSubstr oooChars (pyStrip raw) || hasSubstr plusChars (pyStrip raw)) = false)
    (hstart : extractStart evt = some ss)
    (hd : parseDate8 ss = some d)
    (hy : d.year = 2026) (hm : ¬ 2 < d.month)
    (hend : extractEnd evt = some es)
    (he : parseDate8 es = some e) (hne : e ≠ ⟨1, 1, 1⟩) :
    processBlock shift_name evt = Except.ok
      (expandLoop (String.mk (pyStrip raw)) shift_name
        (toRD (prevDay e) + 1 - toRD d) d (prevDay e)) := by
  simp [processBlock, hsum, hstart, hfil, hd, hy, hm, hend, he, hne]

theorem processBlock_badEnd (shift_name : String) (evt : List Char) (raw : List Char)
    (ss es : String) (d : Date)
    (hsum : extractSummary evt = some raw)
    (hfil : (hasSubstr oooChars (pyStrip raw) || hasSubstr plusChars (pyStrip raw)) = false)
    (hstart : extractStart evt = some ss)
    (hd : parseDate8 ss = some d)
    (hy : d.year = 2026) (hm : ¬ 2 < d.month)
    (hend : extractEnd evt = some es)
    (he : parseDate8 es = none) :
    processBlock shift_name evt = Except.error () := by
  simp [processBlock, hsum, hstart, hfil, hd, hy, hm, hend, he]

/-! ### Claim theorems -/

/-- C5: every event block whose extracted summary, after trimming, contains
the substring `OOO` or the character `+` contributes zero records, even
when its dates are valid and in range. -/
theorem c5_summary_exclusion (shift_name : String) (evt : List Char) (raw : List Char)
    (hsum : extractSummary evt = some raw)
    (h : hasSubstr oooChars (pyStrip raw) = true ∨ hasSubstr plusChars (pyStrip raw) = true) :
    processBlock shift_name evt = Except.ok [] := by
  cases hstart : extractStart evt with
  | none => simp [processBlock, hsum, hstart]
  | some ss =>
    have hcond : (hasSubstr oooChars (pyStrip raw) || hasSubstr plusChars (pyStrip raw)) = true := by
      rcases h with h | h <;> simp [h]
    simp [processBlock, hsum, hstart, hcond]

/-- Witness for C5: a block with summary `Dan OOO` and valid in-range dates
contributes zero records. -/
theorem c5_summary_exclusion_witness :
    extractSummary ("\nSUMMARY:Dan OOO\nDTSTART;VALUE=DATE:20260103\nEND:VEVENT\n".data) =
        some ("Dan OOO".data) ∧
      hasSubstr oooChars (pyStrip ("Dan OOO".data)) = true ∧
      processBlock ("AM") ("\nSUMMARY:Dan OOO\nDTSTART;VALUE=DATE:20260103\nEND:VEVENT\n".data) =
        Except.ok [] :=
  ⟨by decide, by decide,
    c5_summary_exclusion ("AM") _ ("Dan OOO".data) (by decide) (Or.inl (by decide))⟩

/-- C6: every event block whose parsed start date has year other than 2026,
or year 2026 and month greater than 2, contributes zero records. -/
theorem c6_start_window (shift_name : String) (evt : List Char) (ss : String) (d : Date)
    (hstart : extractStart evt = some ss) (hd : parseDate8 ss = some d)
    (h : d.year ≠ 2026 ∨ (d.year = 2026 ∧ 2 < d.month)) :
    processBlock shift_name evt = Except.ok [] := by
  cases hsum : extractSummary evt with
  | none => simp [processBlock, hsum]
  | some raw =>
    cases hfil : (hasSubstr oooChars (pyStrip raw) || hasSubstr plusChars (pyStrip raw)) with
    | true => simp [processBlock, hsum, hstart, hfil]
    | false =>
      rcases h with h | ⟨h1, h2⟩
      · simp [processBlock, hsum, hstart, hfil, hd, h]
      · simp [processBlock, hsum, hstart, hfil, hd, h1, h2]

/-- Witness for C6: a block starting 2025-01-04 (year outside the window)
contributes zero records. -/
theorem c6_start_window_witness :
    extractStart ("\nSUMMARY:Gail\nDTSTART;VALUE=DATE:20250104\nEND:VEVENT\n".data) =
        some ("20250104") ∧
      parseDate8 ("20250104") = some ⟨2025, 1, 4⟩ ∧
      processBlock ("AM") ("\nSUMMARY:Gail\nDTSTART;VALUE=DATE:20250104\nEND:VEVENT\n".data) =
        Except.ok [] :=
  ⟨by decide, by decide,
    c6_start_window ("AM") _ ("20250104") ⟨2025, 1, 4⟩ (by decide) (by decide)
      (Or.inl (by decide))⟩

/-- C8: every event block lacking a summary field or lacking a start-date
field contributes zero records and raises no error. -/
theorem c8_missing_fields (shift_name : String) (evt : List Char)
    (h : extractSummary evt = none ∨ extractStart evt = none) :
    processBlock shift_name evt = Except.ok [] := by
  rcases h with h | h
  · simp [processBlock, h]
  · cases hsum : extractSummary evt with
    | none => simp [processBlock, hsum]
    | some raw => simp [processBlock, hsum, h]

/-- Witness for C8: a block with a start date but no summary line
contributes zero records. -/
theorem c8_missing_fields_witness :
    extractSummary ("\nDTSTART;VALUE=DATE:20260103\nEND:VEVENT\n".data) = none ∧
      processBlock ("AM") ("\nDTSTART;VALUE=DATE:20260103\nEND:VEVENT\n".data) =
        Except.ok [] :=
  ⟨by decide, c8_missing_fields ("AM") _ (Or.inl (by decide))⟩

/-- C3: for a block that passes all filters, the emitted records are exactly
one per calendar day in the inclusive range from the start date to the
effective last day whose weekday is Saturday or Sunday, carrying the date,
the weekday label, the title and the shift tag: the loop output is the
`filterMap` of the weekend-record function over the list of consecutive
days, that day list enumerates exactly the rata-die interval
`[toRD start, toRD e]` (one day per day number, all valid dates), and the
two concrete examples of the claim hold: start `20260102` (a Friday) with
no end date yields zero records, and start `20260102` with end `20260106`
yields exactly the records for Jan 3 (Sat) and Jan 4 (Sun) 2026. -/
theorem c3_weekend_expansion :
    (∀ (summary shift_name : String) (start e : Date),
      validDate start = true → validDate e = true →
      expandLoop summary shift_name (toRD e + 1 - toRD start) start e =
        (dayRange start (toRD e + 1 - toRD start)).filterMap
          (weekendRec summary shift_name)) ∧
    (∀ (start : Date) (n : Nat), validDate start = true →
      (dayRange start n).map toRD = List.range' (toRD start) n ∧
        ∀ d ∈ dayRange start n, validDate d = true) ∧
    processBlock ("AM") ("\nSUMMARY:Alice\nDTSTART;VALUE=DATE:20260102\nEND:VEVENT\n".data) =
      Except.ok [] ∧
    processBlock ("AM")
        ("\nSUMMARY:Alice\nDTSTART;VALUE=DATE:20260102\nDTEND;VALUE=DATE:20260106\nEND:VEVENT\n".data) =
      Except.ok [⟨"2026-01-03", "Sat", "Alice", "AM"⟩, ⟨"2026-01-04", "Sun", "Alice", "AM"⟩] := by
  refine ⟨?_, ?_, by decide, by decide⟩
  · intro summary shift_name start e hs he
    exact expandLoop_eq_filterMap summary shift_name _ start e hs he rfl
  · intro start n hs
    exact dayRange_toRD_valid n start hs

/-- Witness for C3: the expansion of Jan 2 .. Jan 5, 2026 equals the
weekend filter of the corresponding day range. -/
theorem c3_weekend_expansion_witness :
    validDate ⟨2026, 1, 2⟩ = true ∧ validDate ⟨2026, 1, 5⟩ = true ∧
    expandLoop ("Alice") ("AM") (toRD ⟨2026, 1, 5⟩ + 1 - toRD ⟨2026, 1, 2⟩)
        ⟨2026, 1, 2⟩ ⟨2026, 1, 5⟩ =
      (dayRange ⟨2026, 1, 2⟩ (toRD ⟨2026, 1, 5⟩ + 1 - toRD ⟨2026, 1, 2⟩)).filterMap
        (weekendRec ("Alice") ("AM")) :=
  ⟨by decide, by decide,
    c3_weekend_expansion.1 ("Alice") ("AM") ⟨2026, 1, 2⟩ ⟨2026, 1, 5⟩ (by decide) (by decide)⟩

/-- C4: for a block that passes the filters, the effective last day of the
expansion equals the parsed end date minus one day when an end-date field
is present (the subtraction being the real calendar predecessor, witnessed
on day numbers), and equals the start date when no end-date field is
present. -/
theorem c4_effective_end :
    (∀ (shift_name : String) (evt raw : List Char) (ss : String) (d : Date),
      extractSummary evt = some raw →
      (hasSubstr oooChars (pyStrip raw) || hasSubstr plusChars (pyStrip raw)) = false →
      extractStart evt = some ss → parseDate8 ss = some d →
      d.year = 2026 → ¬ 2 < d.month → extractEnd evt = none →
      processBlock shift_name evt = Except.ok
        (expandLoop (String.mk (pyStrip raw)) shift_name (toRD d + 1 - toRD d) d d)) ∧
    (∀ (shift_name : String) (evt raw : List Char) (ss es : String) (d e : Date),
      extractSummary evt = some raw →
      (hasSubstr oooChars (pyStrip raw) || hasSubstr plusChars (pyStrip raw)) = false →
      extractStart evt = some ss → parseDate8 ss = some d →
      d.year = 2026 → ¬ 2 < d.month → extractEnd evt = some es →
      parseDate8 es = some e → e ≠ ⟨1, 1, 1⟩ →
      processBlock shift_name evt = Except.ok
        (expandLoop (String.mk (pyStrip raw)) shift_name
          (toRD (prevDay e) + 1 - toRD d) d (prevDay e))) ∧
    (∀ e : Date, validDate e = true → e ≠ ⟨1, 1, 1⟩ →
      toRD (prevDay e) + 1 = toRD e) := by
  refine ⟨?_, ?_, ?_⟩
  · intro shift_name evt raw ss d hsum hfil hstart hd hy hm hend
    exact processBlock_noEnd shift_name evt raw ss d hsum hfil hstart hd hy hm hend
  · intro shift_name evt raw ss es d e hsum hfil hstart hd hy hm hend he hne
    exact processBlock_withEnd shift_name evt raw ss es d e hsum hfil hstart hd hy hm hend he hne
  · intro e hv hne
    exact toRD_prevDay e hv hne

/-- Witness for C4: concrete blocks with and without an end-date field, and
the predecessor arithmetic at 2026-01-06. -/
theorem c4_effective_end_witness :
    processBlock ("AM") ("\nSUMMARY:Alice\nDTSTART;VALUE=DATE:20260102\nEND:VEVENT\n".data) =
      Except.ok (expandLoop ("Alice") ("AM")
        (toRD ⟨2026, 1, 2⟩ + 1 - toRD ⟨2026, 1, 2⟩) ⟨2026, 1, 2⟩ ⟨2026, 1, 2⟩) ∧
    processBlock ("AM")
        ("\nSUMMARY:Alice\nDTSTART;VALUE=DATE:20260102\nDTEND;VALUE=DATE:20260106\nEND:VEVENT\n".data) =
      Except.ok (expandLoop ("Alice") ("AM")
        (toRD (prevDay ⟨2026, 1, 6⟩) + 1 - toRD ⟨2026, 1, 2⟩) ⟨2026, 1, 2⟩
        (prevDay ⟨2026, 1, 6⟩)) ∧
    toRD (prevDay ⟨2026, 1, 6⟩) + 1 = toRD ⟨2026, 1, 6⟩ :=
  ⟨c4_effective_end.1 ("AM") _ ("Alice".data) ("20260102") ⟨2026, 1, 2⟩ (by decide) (by decide)
      (by decide) (by decide) (by decide) (by decide) (by decide),
    c4_effective_end.2.1 ("AM") _ ("Alice".data) ("20260102") ("20260106") ⟨2026, 1, 2⟩
      ⟨2026, 1, 6⟩ (by decide) (by decide) (by decide) (by decide) (by decide) (by decide)
      (by decide) (by decide) (by decide),
    c4_effective_end.2.2 ⟨2026, 1, 6⟩ (by decide) (by decide)⟩

/-- C10 (amended): for a block that passes the filters, whose parsed end
date is at most its parsed start date and is not the minimum representable
date 0001-01-01, the effective last day strictly precedes the start date
and the block contributes zero records (the loop body never executes); for
an end date equal to 0001-01-01 the date subtraction itself overflows and
the exception propagates instead (see the counterexample). -/
theorem c10_end_not_after_start (shift_name : String) (evt raw : List Char) (ss es : String)
    (d e : Date)
    (hsum : extractSummary evt = some raw)
    (hfil : (hasSubstr oooChars (pyStrip raw) || hasSubstr plusChars (pyStrip raw)) = false)
    (hstart : extractStart evt = some ss)
    (hd : parseDate8 ss = some d)
    (hy : d.year = 2026) (hm : ¬ 2 < d.month)
    (hend : extractEnd evt = some es)
    (he : parseDate8 es = some e) (hne : e ≠ ⟨1, 1, 1⟩)
    (hle : dateLE e d = true) :
    processBlock shift_name evt = Except.ok [] ∧ toRD (prevDay e) < toRD d := by
  have hvd : validDate d = true := parseDate8_valid hd
  have hve : validDate e = true := parseDate8_valid he
  have hrd : toRD e ≤ toRD d := (dateLE_iff_toRD e d hve hvd).mp hle
  have hpd := toRD_prevDay e hve hne
  have hfuel : toRD (prevDay e) + 1 - toRD d = 0 := by omega
  have hpb := processBlock_withEnd shift_name evt raw ss es d e hsum hfil hstart hd hy hm
    hend he hne
  rw [hfuel] at hpb
  exact ⟨hpb, by omega⟩

/-- Counterexample for C10 as stated: a block whose parsed end date
0001-01-01 is at most its parsed start date does not contribute zero
records; the date subtraction overflows and the exception propagates. -/
theorem c10_counterexample :
    parseDate8 ("00010101") = some ⟨1, 1, 1⟩ ∧
    dateLE ⟨1, 1, 1⟩ ⟨2026, 1, 3⟩ = true ∧
    processBlock ("AM")
        ("\nSUMMARY:Frank\nDTSTART;VALUE=DATE:20260103\nDTEND;VALUE=DATE:00010101\nEND:VEVENT\n".data) =
      Except.error () := by
  exact ⟨by decide, by decide, by decide⟩

/-- Witness for C10: a block with `DTEND` equal to `DTSTART` on a Saturday
contributes zero records. -/
theorem c10_end_not_after_start_witness :
    processBlock ("AM")
        ("\nSUMMARY:Eve\nDTSTART;VALUE=DATE:20260103\nDTEND;VALUE=DATE:20260103\nEND:VEVENT\n".data) =
      Except.ok [] ∧ toRD (prevDay ⟨2026, 1, 3⟩) < toRD ⟨2026, 1, 3⟩ :=
  c10_end_not_after_start ("AM") _ ("Eve".data) ("20260103") ("20260103") ⟨2026, 1, 3⟩
    ⟨2026, 1, 3⟩ (by decide) (by decide) (by decide) (by decide) (by decide) (by decide)
    (by decide) (by decide) (by decide) (by decide)

/-- C1 (amended): a malformed 8-digit date in the start-date position causes
only that single block to be skipped (the block yields zero records and
processing continues with the remaining blocks, because that `strptime` is
wrapped in `try/except ValueError`); but a malformed 8-digit date in the
end-date position is parsed by an *unguarded* `strptime`, so the
`ValueError` propagates out of `parse_ics` (see the counterexample). -/
theorem c1_error_handling :
    (∀ (shift_name : String) (evt : List Char) (rest : List (List Char)) (ss : String),
      extractStart evt = some ss → parseDate8 ss = none →
      processBlock shift_name evt = Except.ok [] ∧
        goBlocks shift_name (evt :: rest) = goBlocks shift_name rest) ∧
    (∀ (shift_name : String) (evt : List Char) (rest : List (List Char)) (raw : List Char)
        (ss es : String) (d : Date),
      extractSummary evt = some raw →
      (hasSubstr oooChars (pyStrip raw) || hasSubstr plusChars (pyStrip raw)) = false →
      extractStart evt = some ss → parseDate8 ss = some d →
      d.year = 2026 → ¬ 2 < d.month → extractEnd evt = some es → parseDate8 es = none →
      goBlocks shift_name (evt :: rest) = Except.error ()) := by
  constructor
  · intro shift_name evt rest ss hstart hparse
    have hpb : processBlock shift_name evt = Except.ok [] := by
      cases hsum : extractSummary evt with
      | none => simp [processBlock, hsum]
      | some raw =>
        cases hfil : (hasSubstr oooChars (pyStrip raw) || hasSubstr plusChars (pyStrip raw)) with
        | true => simp [processBlock, hsum, hstart, hfil]
        | false => simp [processBlock, hsum, hstart, hfil, hparse]
    refine ⟨hpb, ?_⟩
    cases hrest : goBlocks shift_name rest <;> simp [goBlocks, hpb, hrest]
  · intro shift_name evt rest raw ss es d hsum hfil hstart hd hy hm hend he
    have hpb := processBlock_badEnd shift_name evt raw ss es d hsum hfil hstart hd hy hm hend he
    simp [goBlocks, hpb]

/-- Counterexample for C1 as stated: with an existing input file containing
one block whose `DTEND` field is the 8-digit string `20260231` (no such
calendar date), `parse_ics` raises instead of returning a list. -/
theorem c1_counterexample :
    parse_ics
        (fun _ => some
          ("BEGIN:VEVENT\nSUMMARY:Carol\nDTSTART;VALUE=DATE:20260103\nDTEND;VALUE=DATE:20260231\nEND:VEVENT\n"))
        ("AMR AM Analysts.ics") ("AM") =
      Except.error () := by decide

/-- Witness for C1: a malformed start date `20269999` skips only its own
block, while a malformed end date `20260231` aborts the block list. -/
theorem c1_error_handling_witness :
    (processBlock ("AM") ("\nSUMMARY:Hal\nDTSTART;VALUE=DATE:20269999\nEND:VEVENT\n".data) =
        Except.ok [] ∧
      goBlocks ("AM") [("\nSUMMARY:Hal\nDTSTART;VALUE=DATE:20269999\nEND:VEVENT\n".data)] =
        goBlocks ("AM") []) ∧
    goBlocks ("AM")
        [("\nSUMMARY:Carol\nDTSTART;VALUE=DATE:20260103\nDTEND;VALUE=DATE:20260231\nEND:VEVENT\n".data)] =
      Except.error () :=
  ⟨c1_error_handling.1 ("AM") _ [] ("20269999") (by decide) (by decide),
    c1_error_handling.2 ("AM") _ [] ("Carol".data) ("20260103") ("20260231") ⟨2026, 1, 3⟩
      (by decide) (by decide) (by decide) (by decide) (by decide) (by decide) (by decide)
      (by decide)⟩

/-! ### Membership lemmas for the records of one file -/

theorem processBlock_mem (shift_name : String) (evt : List Char) (l : List ShiftRecord)
    (h : processBlock shift_name evt = Except.ok l) :
    ∀ r ∈ l, ∃ d : Date, 2026 ≤ d.year ∧ (weekday d = 5 ∨ weekday d = 6) ∧
      r = mkRec d r.name shift_name := by
  intro r hr
  cases hsum : extractSummary evt with
  | none =>
    simp [processBlock, hsum] at h
    subst h
    simp at hr
  | some raw =>
    cases hstart : extractStart evt with
    | none =>
      simp [processBlock, hsum, hstart] at h
      subst h
      simp at hr
    | some ss =>
      cases hfil : (hasSubstr oooChars (pyStrip raw) || hasSubstr plusChars (pyStrip raw)) with
      | true =>
        simp [processBlock, hsum, hstart, hfil] at h
        subst h
        simp at hr
      | false =>
        cases hd : parseDate8 ss with
        | none =>
          simp [processBlock, hsum, hstart, hfil, hd] at h
          subst h
          simp at hr
        | some d =>
          by_cases hy : d.year = 2026
          · by_cases hm : 2 < d.month
            · simp [processBlock, hsum, hstart, hfil, hd, hy, hm] at h
              subst h
              simp at hr
            · cases hend : extractEnd evt with
              | none =>
                simp [processBlock, hsum, hstart, hfil, hd, hy, hm, hend] at h
                rw [← h] at hr
                obtain ⟨dd, hd1, hd2, hd3⟩ :=
                  expandLoop_mem (String.mk (pyStrip raw)) shift_name _ d d r hr
                refine ⟨dd, by omega, hd2, ?_⟩
                subst hd3
                rfl
              | some es =>
                cases he : parseDate8 es with
                | none =>
                  simp [processBlock, hsum, hstart, hfil, hd, hy, hm, hend, he] at h
                | some e =>
                  by_cases hne : e = ⟨1, 1, 1⟩
                  · simp [processBlock, hsum, hstart, hfil, hd, hy, hm, hend, he, hne] at h
                  · simp [processBlock, hsum, hstart, hfil, hd, hy, hm, hend, he, hne] at h
                    rw [← h] at hr
                    obtain ⟨dd, hd1, hd2, hd3⟩ :=
                      expandLoop_mem (String.mk (pyStrip raw)) shift_name _ d (prevDay e) r hr
                    refine ⟨dd, by omega, hd2, ?_⟩
                    subst hd3
                    rfl
          · simp [processBlock, hsum, hstart, hfil, hd, hy] at h
            subst h
            simp at hr

theorem goBlocks_mem (shift_name : String) : ∀ (blocks : List (List Char))
    (l : List ShiftRecord), goBlocks shift_name blocks = Except.ok l →
    ∀ r ∈ l, ∃ d : Date, 2026 ≤ d.year ∧ (weekday d = 5 ∨ weekday d = 6) ∧
      r = mkRec d r.name shift_name := by
  intro blocks
  induction blocks with
  | nil =>
    intro l h r hr
    simp [goBlocks] at h
    subst h
    simp at hr
  | cons evt rest ih =>
    intro l h r hr
    cases hpb : processBlock shift_name evt with
    | error e => simp [goBlocks, hpb] at h
    | ok rs =>
      cases hgb : goBlocks shift_name rest with
      | error e => simp [goBlocks, hpb, hgb] at h
      | ok more =>
        simp [goBlocks, hpb, hgb] at h
        rw [← h] at hr
        rcases List.mem_append.mp hr with h1 | h2
        · exact processBlock_mem shift_name evt rs hpb r h1
        · exact ih more hgb r h2

/-- C2 (amended): every record produced by parsing a file content comes
from a calendar day whose weekday is Saturday or Sunday, with the `day`
field set to the matching label, and that day's year is at least 2026 (the
block's start date is confined to January/February 2026, but the record's
own date may lie after February 2026 when the event's end date extends
past the window: see the counterexample). -/
theorem c2_invariant : ∀ (content shift_name : String) (l : List ShiftRecord)
    (r : ShiftRecord), parseContent content shift_name = Except.ok l → r ∈ l →
    (r.day = "Sat" ∨ r.day = "Sun") ∧
    ∃ d : Date, 2026 ≤ d.year ∧ (weekday d = 5 ∨ weekday d = 6) ∧
      r = mkRec d r.name shift_name := by
  intro content shift_name l r h hr
  have h2 : goBlocks shift_name ((splitEvents content.data).drop 1) = Except.ok l := h
  obtain ⟨d, hd1, hd2, hd3⟩ := goBlocks_mem shift_name _ l h2 r hr
  refine ⟨?_, d, hd1, hd2, hd3⟩
  rw [hd3]
  by_cases h6 : weekday d = 6
  · right
    simp [mkRec, h6]
  · left
    simp [mkRec, h6]

/-- Counterexample for C2 as stated: an event starting Friday 2026-02-27
with exclusive end 2026-03-02 passes the start-month filter but produces a
record dated 2026-03-01, whose month is neither 1 nor 2. -/
theorem c2_counterexample :
    parseContent
        ("BEGIN:VEVENT\nSUMMARY:Bob\nDTSTART;VALUE=DATE:20260227\nDTEND;VALUE=DATE:20260302\nEND:VEVENT\n")
        ("AM") =
      Except.ok [⟨"2026-02-28", "Sat", "Bob", "AM"⟩, ⟨"2026-03-01", "Sun", "Bob", "AM"⟩] ∧
    (⟨"2026-03-01", "Sun", "Bob", "AM"⟩ : ShiftRecord) ∈
      [(⟨"2026-02-28", "Sat", "Bob", "AM"⟩ : ShiftRecord),
        ⟨"2026-03-01", "Sun", "Bob", "AM"⟩] ∧
    isoYear ("2026-03-01") = 2026 ∧
    ¬ (isoMonth ("2026-03-01") = 1 ∨ isoMonth ("2026-03-01") = 2) := by
  exact ⟨by decide, by decide, by decide, by decide⟩

/-- Witness for C2: the first record of the counterexample content, with
its underlying weekend day. -/
theorem c2_invariant_witness :
    ((⟨"2026-02-28", "Sat", "Bob", "AM"⟩ : ShiftRecord).day = "Sat" ∨
      (⟨"2026-02-28", "Sat", "Bob", "AM"⟩ : ShiftRecord).day = "Sun") ∧
    ∃ d : Date, 2026 ≤ d.year ∧ (weekday d = 5 ∨ weekday d = 6) ∧
      (⟨"2026-02-28", "Sat", "Bob", "AM"⟩ : ShiftRecord) =
        mkRec d (⟨"2026-02-28", "Sat", "Bob", "AM"⟩ : ShiftRecord).name ("AM") :=
  c2_invariant
    ("BEGIN:VEVENT\nSUMMARY:Bob\nDTSTART;VALUE=DATE:20260227\nDTEND;VALUE=DATE:20260302\nEND:VEVENT\n")
    ("AM")
    [⟨"2026-02-28", "Sat", "Bob", "AM"⟩, ⟨"2026-03-01", "Sun", "Bob", "AM"⟩]
    ⟨"2026-02-28", "Sat", "Bob", "AM"⟩ (by decide) (by decide)

/-- C7: the combined record sequence printed by the driver is sorted
ascending by the pair (ISO date string, shift tag), compared
lexicographically; the printed rows are exactly the sorted combined
records, and for two records with the same date and tags `AM` and `PM`,
the `AM` record precedes the `PM` record. -/
theorem c7_sorted_output :
    (∀ ops : List ShiftRecord, List.Sorted key_le (sortRecords ops)) ∧
    (∀ (fs : String → Option String) (am pm : List ShiftRecord),
      parse_ics fs ("AMR AM Analysts.ics") ("AM") = Except.ok am →
      parse_ics fs ("AMR PM Analysts.ics") ("PM") = Except.ok pm →
      run fs = Except.ok (headerLine :: dashLine :: (sortRecords (am ++ pm)).map rowLine)) ∧
    sortRecords [⟨"2026-01-03", "Sat", "B", "PM"⟩, ⟨"2026-01-03", "Sat", "A", "AM"⟩] =
      [⟨"2026-01-03", "Sat", "A", "AM"⟩, ⟨"2026-01-03", "Sat", "B", "PM"⟩] := by
  refine ⟨?_, ?_, by decide⟩
  · intro ops
    haveI h1 : IsTotal ShiftRecord key_le := ⟨key_le_total⟩
    haveI h2 : IsTrans ShiftRecord key_le := ⟨key_le_trans⟩
    exact List.sorted_insertionSort key_le ops
  · intro fs am pm ham hpm
    simp [run, ham, hpm]

/-- Witness for C7: sortedness of a concrete sort result and the driver
output shape on the empty file system. -/
theorem c7_sorted_output_witness :
    List.Sorted key_le (sortRecords
      [⟨"2026-01-03", "Sat", "B", "PM"⟩, ⟨"2026-01-03", "Sat", "A", "AM"⟩]) ∧
    run (fun _ => none) =
      Except.ok (headerLine :: dashLine :: (sortRecords ([] ++ [])).map rowLine) :=
  ⟨c7_sorted_output.1 [⟨"2026-01-03", "Sat", "B", "PM"⟩, ⟨"2026-01-03", "Sat", "A", "AM"⟩],
    c7_sorted_output.2.1 (fun _ => none) [] [] (by decide) (by decide)⟩

/-- C9: a file that exists at neither the primary relative path nor the
absolute fallback path yields an empty record list for that source, and
when both sources resolve to nothing the run still completes and prints
exactly the table header and separator. -/
theorem c9_missing_file :
    (∀ (fs : String → Option String) (filename shift_name : String),
      fs (primaryPath filename) = none → fs (fallbackPath filename) = none →
      parse_ics fs filename shift_name = Except.ok []) ∧
    (∀ fs : String → Option String,
      fs (primaryPath ("AMR AM Analysts.ics")) = none →
      fs (fallbackPath ("AMR AM Analysts.ics")) = none →
      fs (primaryPath ("AMR PM Analysts.ics")) = none →
      fs (fallbackPath ("AMR PM Analysts.ics")) = none →
      run fs = Except.ok [headerLine, dashLine]) := by
  constructor
  · intro fs filename shift_name h1 h2
    simp [parse_ics, h1, h2]
  · intro fs h1 h2 h3 h4
    have ham : parse_ics fs ("AMR AM Analysts.ics") ("AM") = Except.ok [] := by
      simp [parse_ics, h1, h2]
    have hpm : parse_ics fs ("AMR PM Analysts.ics") ("PM") = Except.ok [] := by
      simp [parse_ics, h3, h4]
    simp [run, ham, hpm, sortRecords, List.insertionSort]

/-- Witness for C9: the empty file system. -/
theorem c9_missing_file_witness :
    parse_ics (fun _ => none) ("AMR AM Analysts.ics") ("AM") = Except.ok [] ∧
    run (fun _ => none) = Except.ok [headerLine, dashLine] :=
  ⟨c9_missing_file.1 (fun _ => none) ("AMR AM Analysts.ics") ("AM") rfl rfl,
    c9_missing_file.2 (fun _ => none) rfl rfl rfl rfl⟩

